import Mathlib

/-!
Shallow embedding of the meshproxy local DNS answer engine
(resolver/meshproxy/dns.go) and proofs about its lookup-table
construction and query behaviour.

Go maps `map[string][]dns.RR` are embedded as association lists with
last-write-wins update (`mapSet`) and zero-value read (`mapGet` returns
the empty list for an absent key, matching Go's `table.name4[h]` on a
missing key).  The host set `map[string]struct{}` is embedded as a list
of strings with set-membership semantics.  `net.IP` is embedded as the
inductive `IP`, whose `IP.nil` constructor is the nil slice that Go's
`net.ParseIP` returns on unparseable input.
-/

namespace Meshproxy

/-- Embedding of Go `net.IP`: nil (failed parse), an IPv4 address, or an
IPv6 address. -/
inductive IP where
  | nil : IP
  | v4 : Nat → Nat → Nat → Nat → IP
  | v6 : List Nat → IP
deriving DecidableEq, Repr

/-- miekg/dns record-type code for A records (dns.TypeA). -/
def TypeA : Nat := 1

/-- miekg/dns record-type code for CNAME records (dns.TypeCNAME). -/
def TypeCNAME : Nat := 5

/-- miekg/dns record-type code for AAAA records (dns.TypeAAAA). -/
def TypeAAAA : Nat := 28

/-- miekg/dns class code for the Internet class (dns.ClassINET). -/
def ClassINET : Nat := 1

/-- miekg/dns response code for success (dns.RcodeSuccess). -/
def RcodeSuccess : Nat := 0

/-- Embedding of `dns.RR_Header`: owner name, record type, class, ttl. -/
structure RRHeader where
  Name : String
  Rrtype : Nat
  Class : Nat
  Ttl : Nat
deriving DecidableEq, Repr

/-- Embedding of the `dns.RR` interface restricted to the three concrete
record types this code constructs: `dns.A`, `dns.AAAA`, `dns.CNAME`. -/
inductive RR where
  | A : RRHeader → IP → RR
  | AAAA : RRHeader → IP → RR
  | CNAME : RRHeader → String → RR
deriving DecidableEq, Repr

/-- True exactly on the CNAME constructor. -/
def RR.isCNAME : RR → Bool
  | RR.CNAME _ _ => true
  | _ => false

/-- The header of a record. -/
def RR.hdr : RR → RRHeader
  | RR.A h _ => h
  | RR.AAAA h _ => h
  | RR.CNAME h _ => h

/-- Association-list embedding of Go `map[string][]dns.RR`. -/
abbrev RRMap := List (String × List RR)

/-- Map read: Go `m[k]` yields the zero value `nil` (here `[]`) when the
key is absent. -/
def mapGet (m : RRMap) (k : String) : List RR :=
  match m.find? (fun p => p.1 == k) with
  | some p => p.2
  | none => []

/-- Map write: Go `m[k] = v` overwrites any previous binding of `k`. -/
def mapSet (m : RRMap) (k : String) (v : List RR) : RRMap :=
  m.filter (fun p => p.1 != k) ++ [(k, v)]

/-- The key set of a map. -/
def mapKeys (m : RRMap) : List String :=
  m.map (fun p => p.1)

/-- Set insertion for the `allHosts` set (`map[string]struct{}`). -/
def addHost (hosts : List String) (h : String) : List String :=
  if h ∈ hosts then hosts else hosts ++ [h]

/-- ASCII lowercasing of one character, as Go `strings.ToLower` acts on
the ASCII subset DNS names live in. -/
def toLowerChar (c : Char) : Char :=
  if 65 ≤ c.toNat ∧ c.toNat ≤ 90 then Char.ofNat (c.toNat + 32) else c

/-- Embedding of Go `strings.ToLower` on ASCII strings. -/
def toLowerStr (s : String) : String :=
  String.mk (s.data.map toLowerChar)

/-- Embedding of the `LookupTable` struct of dns.go. -/
structure LookupTable where
  allHosts : List String
  name4 : RRMap
  name6 : RRMap
  cname : RRMap
  dnsTtl : Nat
deriving DecidableEq, Repr

/-- Embedding of the function `a` of dns.go: one A record per address,
owner `host`, type A, class INET, the given ttl. -/
def a (host : String) (ips : List IP) (ttl : Nat) : List RR :=
  ips.map (fun ip => RR.A ⟨host, TypeA, ClassINET, ttl⟩ ip)

/-- Embedding of the function `aaaa` of dns.go. -/
def aaaa (host : String) (ips : List IP) (ttl : Nat) : List RR :=
  ips.map (fun ip => RR.AAAA ⟨host, TypeAAAA, ClassINET, ttl⟩ ip)

/-- Embedding of the function `cname` of dns.go: a single CNAME record
from `host` to `targetHost`. -/
def cname (host : String) (targetHost : String) (ttl : Nat) : List RR :=
  [RR.CNAME ⟨host, TypeCNAME, ClassINET, ttl⟩ targetHost]

/-- Embedding of `LookupTable.buildDNSAnswers`: for each host variant,
lowercase it, add it to `allHosts`, and when the ipv4 (resp. ipv6) list
is non-empty store the synthesized A (resp. AAAA) records under the
variant. -/
def LookupTable.buildDNSAnswers (table : LookupTable) (altHosts : List String)
    (ipv4 : List IP) (ipv6 : List IP) : LookupTable :=
  altHosts.foldl
    (fun t h0 =>
      let h := toLowerStr h0
      let t1 := { t with allHosts := addHost t.allHosts h }
      let t2 :=
        if ipv4.length > 0 then
          { t1 with name4 := mapSet t1.name4 h (a h ipv4 t1.dnsTtl) }
        else t1
      if ipv6.length > 0 then
        { t2 with name6 := mapSet t2.name6 h (aaaa h ipv6 t2.dnsTtl) }
      else t2)
    table

/-- The Go type assertion `cn[0].(*dns.CNAME).Target` in `lookupHost`.
On a non-CNAME record the Go assertion would panic; that path is
unreachable because the `cname` map is only ever written with records
built by the `cname` builder, so the default branch is arbitrary. -/
def cnameTarget : RR → String
  | RR.CNAME _ target => target
  | _ => ""

/-- Embedding of `LookupTable.lookupHost`: membership test against
`allHosts` first (absent means defer upstream, `(nil, false)`), then a
single level of CNAME indirection, then the family table selected by
`qtype`; the chained answer `cn ++ ipAnswers` is produced only when
address records were found. -/
def LookupTable.lookupHost (table : LookupTable) (qtype : Nat)
    (hostname : String) : List RR × Bool :=
  if hostname ∈ table.allHosts then
    let cn := mapGet table.cname hostname
    let hostname2 :=
      match cn with
      | [] => hostname
      | c :: _ => cnameTarget c
    let ipAnswers : List RR :=
      if qtype = TypeA then mapGet table.name4 hostname2
      else if qtype = TypeAAAA then mapGet table.name6 hostname2
      else []
    let out : List RR := if ipAnswers.length > 0 then cn ++ ipAnswers else []
    (out, true)
  else ([], false)

/-- Embedding of the `LocalDNSServer` struct: the `atomic.Value` holding
the published table is `none` until the first `UpdateLookupTable`. -/
structure LocalDNSServer where
  lookupTable : Option LookupTable
  dnsTtl : Nat
deriving DecidableEq, Repr

/-- Embedding of `newLocalDNSServer` (the error result is always nil in
the source, so it is dropped). -/
def newLocalDNSServer (dnsTtl : Nat) : LocalDNSServer :=
  { lookupTable := none, dnsTtl := dnsTtl }

/-- Embedding of `LocalDNSServer.UpdateLookupTable`.  The source builds
a fresh table and, for each service, registers the single host variant
`service + "."` with the one-element ipv4 slice
`[]net.IP{net.ParseIP(dnsResponseIp)}` and a nil ipv6 slice.
`net.ParseIP` is Go standard-library code outside this repository, so
its result is taken here as the parameter `parsedResponseIp`; it is
`IP.nil` exactly when `dnsResponseIp` is unparseable.  The atomic store
is embedded as returning the server with the new table published. -/
def LocalDNSServer.UpdateLookupTable (h : LocalDNSServer)
    (polarisServices : List String) (parsedResponseIp : IP) : LocalDNSServer :=
  let lookupTable : LookupTable :=
    { allHosts := [], name4 := [], name6 := [], cname := [], dnsTtl := h.dnsTtl }
  let lookupTable :=
    polarisServices.foldl
      (fun t service => t.buildDNSAnswers [service ++ "."] [parsedResponseIp] [])
      lookupTable
  { h with lookupTable := some lookupTable }

/-- Embedding of `dns.Question` restricted to the fields dns.go reads. -/
structure Question where
  Name : String
  Qtype : Nat
deriving DecidableEq, Repr

/-- Embedding of `dns.Msg` restricted to the fields dns.go sets on the
fresh `new(dns.Msg)` it returns. -/
structure Msg where
  Authoritative : Bool
  Answer : List RR
  Rcode : Nat
deriving DecidableEq, Repr

/-- Embedding of `LocalDNSServer.ServeDNS`: nil when no table was ever
published; otherwise lowercase the question name, call `lookupHost`, and
when the host was found return an authoritative success message whose
answer section is the records from `lookupHost`, else nil. -/
def LocalDNSServer.ServeDNS (h : LocalDNSServer) (question : Question) :
    Option Msg :=
  match h.lookupTable with
  | none => none
  | some lookupTable =>
    let hostname := toLowerStr question.Name
    let res := lookupTable.lookupHost question.Qtype hostname
    if res.2 then
      some { Authoritative := true, Answer := res.1, Rcode := RcodeSuccess }
    else none

/-- The per-service fold performed by `UpdateLookupTable`: each service
is registered as the single host variant `service ++ "."` with the
one-element ipv4 list holding the parsed response address and a nil
ipv6 list. -/
def updateFold (ip : IP) (services : List String) (t : LookupTable) : LookupTable :=
  services.foldl (fun t service => t.buildDNSAnswers [service ++ "."] [ip] []) t

/-! Concrete tables and servers used to instantiate the theorems. -/

/-- The server obtained by publishing one IPv4 service on a fresh server. -/
def exServer : LocalDNSServer :=
  (newLocalDNSServer 30).UpdateLookupTable ["svc"] (IP.v4 10 0 0 5)

/-- The table `exServer` publishes, written out literally. -/
def exTable : LookupTable :=
  { allHosts := ["svc."],
    name4 := [("svc.", [RR.A ⟨"svc.", TypeA, ClassINET, 30⟩ (IP.v4 10 0 0 5)])],
    name6 := [],
    cname := [],
    dnsTtl := 30 }

/-- A table with one AAAA-only host, for the symmetric half of the
missing-family property. -/
def exTable6 : LookupTable :=
  { allHosts := ["svc6."],
    name4 := [],
    name6 := [("svc6.", aaaa "svc6." [IP.v6 [0, 0, 0, 0, 0, 0, 0, 1]] 30)],
    cname := [],
    dnsTtl := 30 }

/-- A table holding a CNAME alias chain built with the record builders,
for the CNAME chain property. -/
def exTableCn : LookupTable :=
  { allHosts := ["alias.", "tgt."],
    name4 := [("tgt.", a "tgt." [IP.v4 1 2 3 4, IP.v4 5 6 7 8] 9)],
    name6 := [],
    cname := [("alias.", cname "alias." "tgt." 9)],
    dnsTtl := 9 }

/-- The table published after an update whose response address failed to
parse (`net.ParseIP` returned nil). -/
def exTableNil : LookupTable :=
  { allHosts := ["bad-svc."],
    name4 := [("bad-svc.", [RR.A ⟨"bad-svc.", TypeA, ClassINET, 30⟩ IP.nil])],
    name6 := [],
    cname := [],
    dnsTtl := 30 }

/-- A table built by the builder from a case-mixed-free lowercase host,
used to compare case-mixed and lowercase lookups. -/
def tableC6 : LookupTable :=
  LookupTable.buildDNSAnswers
    { allHosts := [], name4 := [], name6 := [], cname := [], dnsTtl := 30 }
    ["foo.example.com."] [IP.v4 10 0 0 5] []

/-- A table built by the builder with both address lists empty: the host
enters `allHosts` but no record map. -/
def tableC7 : LookupTable :=
  LookupTable.buildDNSAnswers
    { allHosts := [], name4 := [], name6 := [], cname := [], dnsTtl := 30 }
    ["svc.example.com."] [] []

/-! Helper lemmas about characters, strings, maps and the host set. -/

theorem charOfNat_toNat (n : Nat) (h : n < 55296) : (Char.ofNat n).toNat = n := by
  have hv : n.isValidChar := Or.inl h
  simp [Char.ofNat, hv, Char.toNat, Char.ofNatAux, UInt32.toNat, BitVec.toNat_ofNatLt]

theorem toLowerChar_idem (c : Char) : toLowerChar (toLowerChar c) = toLowerChar c := by
  unfold toLowerChar
  by_cases h : 65 ≤ c.toNat ∧ c.toNat ≤ 90
  · rw [if_pos h]
    have ht : (Char.ofNat (c.toNat + 32)).toNat = c.toNat + 32 :=
      charOfNat_toNat _ (by omega)
    rw [if_neg]
    rw [ht]
    omega
  · rw [if_neg h, if_neg h]

theorem toLowerStr_idem (s : String) : toLowerStr (toLowerStr s) = toLowerStr s := by
  unfold toLowerStr
  refine congrArg String.mk ?_
  show ((s.data.map toLowerChar).map toLowerChar) = s.data.map toLowerChar
  rw [List.map_map]
  exact List.map_congr_left (fun c _ => toLowerChar_idem c)

theorem toLowerStr_lastDot (s : String) :
    (toLowerStr (s ++ ".")).data.getLast? = some ('.' : Char) := by
  unfold toLowerStr
  show ((s ++ ".").data.map toLowerChar).getLast? = some ('.' : Char)
  have hd : (s ++ ".").data = s.data ++ ['.'] := by
    simp [String.data_append]
  rw [hd, List.map_append]
  simp [toLowerChar]

theorem mem_addHost (hosts : List String) (h h2 : String) :
    h2 ∈ addHost hosts h ↔ h2 ∈ hosts ∨ h2 = h := by
  unfold addHost
  by_cases hm : h ∈ hosts
  · rw [if_pos hm]
    constructor
    · exact fun hh => Or.inl hh
    · rintro (hh | rfl)
      · exact hh
      · exact hm
  · rw [if_neg hm]
    simp

theorem find?_filter_of_imp {α : Type} (p q : α → Bool) (l : List α)
    (h : ∀ x, p x = true → q x = true) :
    (l.filter q).find? p = l.find? p := by
  induction l with
  | nil => rfl
  | cons x xs ih =>
    by_cases hq : q x = true
    · rw [List.filter_cons_of_pos hq]
      by_cases hp : p x = true
      · rw [List.find?_cons_of_pos _ hp, List.find?_cons_of_pos _ hp]
      · rw [List.find?_cons_of_neg _ hp, List.find?_cons_of_neg _ hp]
        exact ih
    · have hp : ¬ p x = true := fun hh => hq (h x hh)
      rw [List.filter_cons_of_neg hq, List.find?_cons_of_neg _ hp]
      exact ih

theorem mapGet_nil (k : String) : mapGet [] k = [] := rfl

theorem mapGet_set_eq (m : RRMap) (k : String) (v : List RR) :
    mapGet (mapSet m k v) k = v := by
  unfold mapGet mapSet
  rw [List.find?_append]
  have hnone : (m.filter (fun p => p.1 != k)).find? (fun p => p.1 == k) = none := by
    rw [List.find?_eq_none]
    intro x hx
    rw [List.mem_filter] at hx
    simp only [bne_iff_ne, ne_eq] at hx
    simp [hx.2]
  rw [hnone]
  simp

theorem mapGet_set_ne (m : RRMap) (k : String) (v : List RR) (k2 : String)
    (h : k2 ≠ k) : mapGet (mapSet m k v) k2 = mapGet m k2 := by
  unfold mapGet mapSet
  rw [List.find?_append]
  rw [find?_filter_of_imp (fun p => p.1 == k2) (fun p => p.1 != k) m
    (by intro x hx; simp only [beq_iff_eq] at hx; simp [bne_iff_ne, hx, h])]
  have hsingle : (List.find? (fun p => p.1 == k2) [(k, v)]) = none := by
    simp [Ne.symm h]
  rw [hsingle]
  cases List.find? (fun p => p.1 == k2) m <;> rfl

theorem mem_mapKeys_set (m : RRMap) (k : String) (v : List RR) (k2 : String) :
    k2 ∈ mapKeys (mapSet m k v) ↔ k2 ∈ mapKeys m ∨ k2 = k := by
  unfold mapKeys mapSet
  rw [List.map_append, List.mem_append]
  simp only [List.mem_map, List.mem_filter, List.mem_singleton, bne_iff_ne, ne_eq]
  constructor
  · rintro (⟨p, ⟨hpm, hpk⟩, rfl⟩ | hk)
    · exact Or.inl ⟨p, hpm, rfl⟩
    · simp at hk
      exact Or.inr hk.symm
  · rintro (⟨p, hpm, rfl⟩ | rfl)
    · by_cases hk : p.1 = k
      · exact Or.inr (by simp [hk])
      · exact Or.inl ⟨p, ⟨hpm, hk⟩, rfl⟩
    · exact Or.inr (by simp)

/-! Characterization of the table built by `UpdateLookupTable`: the fold
over the service list, starting from an arbitrary table under
construction. -/

theorem updateLookupTable_eq (h : LocalDNSServer) (services : List String)
    (ip : IP) :
    (h.UpdateLookupTable services ip).lookupTable =
      some (updateFold ip services
        { allHosts := [], name4 := [], name6 := [], cname := [], dnsTtl := h.dnsTtl }) := rfl

theorem buildDNSAnswers_single (t : LookupTable) (s : String) (ip : IP) :
    t.buildDNSAnswers [s ++ "."] [ip] [] =
      { t with
        allHosts := addHost t.allHosts (toLowerStr (s ++ ".")),
        name4 := mapSet t.name4 (toLowerStr (s ++ "."))
          (a (toLowerStr (s ++ ".")) [ip] t.dnsTtl) } := rfl

theorem updateFold_cons (ip : IP) (s : String) (rest : List String)
    (t : LookupTable) :
    updateFold ip (s :: rest) t =
      updateFold ip rest (t.buildDNSAnswers [s ++ "."] [ip] []) := rfl

theorem updateFold_preserved (ip : IP) (services : List String) (t : LookupTable) :
    (updateFold ip services t).name6 = t.name6 ∧
    (updateFold ip services t).cname = t.cname ∧
    (updateFold ip services t).dnsTtl = t.dnsTtl := by
  induction services generalizing t with
  | nil => exact ⟨rfl, rfl, rfl⟩
  | cons s rest ih =>
    rw [updateFold_cons, buildDNSAnswers_single]
    exact ih _

theorem updateFold_allHosts (ip : IP) (services : List String) (t : LookupTable)
    (h2 : String) :
    h2 ∈ (updateFold ip services t).allHosts ↔
      h2 ∈ t.allHosts ∨ h2 ∈ services.map (fun s => toLowerStr (s ++ ".")) := by
  induction services generalizing t with
  | nil => simp [updateFold]
  | cons s rest ih =>
    rw [updateFold_cons, buildDNSAnswers_single, ih]
    simp only [List.map_cons, List.mem_cons]
    rw [mem_addHost]
    tauto

theorem updateFold_name4_get (ip : IP) (services : List String) (t : LookupTable)
    (h2 : String) :
    mapGet (updateFold ip services t).name4 h2 =
      if h2 ∈ services.map (fun s => toLowerStr (s ++ ".")) then
        a h2 [ip] t.dnsTtl
      else mapGet t.name4 h2 := by
  induction services generalizing t with
  | nil => simp [updateFold]
  | cons s rest ih =>
    rw [updateFold_cons, buildDNSAnswers_single, ih]
    simp only [List.map_cons, List.mem_cons]
    by_cases hr : h2 ∈ rest.map (fun s => toLowerStr (s ++ "."))
    · rw [if_pos hr, if_pos (Or.inr hr)]
    · rw [if_neg hr]
      by_cases he : h2 = toLowerStr (s ++ ".")
      · subst he
        rw [mapGet_set_eq, if_pos (Or.inl rfl)]
      · rw [mapGet_set_ne _ _ _ _ he, if_neg (by tauto)]

theorem updateFold_name4_keys (ip : IP) (services : List String) (t : LookupTable)
    (k : String) :
    k ∈ mapKeys (updateFold ip services t).name4 ↔
      k ∈ mapKeys t.name4 ∨ k ∈ services.map (fun s => toLowerStr (s ++ ".")) := by
  induction services generalizing t with
  | nil => simp [updateFold]
  | cons s rest ih =>
    rw [updateFold_cons, buildDNSAnswers_single, ih]
    simp only [List.map_cons, List.mem_cons]
    rw [mem_mapKeys_set]
    tauto

theorem updateFold_answers_noCNAME (ip : IP) (services : List String) (ttl : Nat)
    (qtype : Nat) (hostname : String) :
    ∀ r ∈ ((updateFold ip services
        { allHosts := [], name4 := [], name6 := [], cname := [],
          dnsTtl := ttl }).lookupHost qtype hostname).1,
      r.isCNAME = false := by
  intro r hr
  by_cases hmem : hostname ∈ (updateFold ip services
      { allHosts := [], name4 := [], name6 := [], cname := [], dnsTtl := ttl }).allHosts
  · have hcn : mapGet (updateFold ip services
        { allHosts := [], name4 := [], name6 := [], cname := [],
          dnsTtl := ttl }).cname hostname = [] := by
      rw [(updateFold_preserved ip services _).2.1]
      rfl
    have h6 : mapGet (updateFold ip services
        { allHosts := [], name4 := [], name6 := [], cname := [],
          dnsTtl := ttl }).name6 hostname = [] := by
      rw [(updateFold_preserved ip services _).1]
      rfl
    have hget : mapGet (updateFold ip services
          { allHosts := [], name4 := [], name6 := [], cname := [],
            dnsTtl := ttl }).name4 hostname = a hostname [ip] ttl ∨
        mapGet (updateFold ip services
          { allHosts := [], name4 := [], name6 := [], cname := [],
            dnsTtl := ttl }).name4 hostname = [] := by
      rw [updateFold_name4_get]
      by_cases hm : hostname ∈ services.map (fun s => toLowerStr (s ++ "."))
      · exact Or.inl (if_pos hm)
      · exact Or.inr ((if_neg hm).trans rfl)
    by_cases hA : qtype = TypeA
    · subst hA
      rcases hget with hget | hget
      · simp [LookupTable.lookupHost, hmem, hcn, hget, a, TypeA] at hr
        subst hr
        rfl
      · simp [LookupTable.lookupHost, hmem, hcn, hget, TypeA] at hr
    · by_cases hAA : qtype = TypeAAAA
      · subst hAA
        simp [LookupTable.lookupHost, hmem, hcn, h6, TypeA, TypeAAAA] at hr
      · simp [LookupTable.lookupHost, hmem, hcn, hA, hAA] at hr
  · simp [LookupTable.lookupHost, hmem] at hr

/-- C1: ServeDNS contract.  For every question: if no table has ever
been published, `ServeDNS` returns nil; if a table is published and the
lowercased question name is known (`isKnown = true`), it returns a
response with `Authoritative = true`, `Rcode` = success and an answer
section that is exactly the record sequence returned by `lookupHost`;
if the name is unknown, it returns nil. -/
theorem C1_serveDNS_contract (server : LocalDNSServer) (question : Question) :
    (server.lookupTable = none → server.ServeDNS question = none) ∧
    (∀ t, server.lookupTable = some t →
      ((t.lookupHost question.Qtype (toLowerStr question.Name)).2 = true →
        server.ServeDNS question =
          some { Authoritative := true,
                 Answer := (t.lookupHost question.Qtype (toLowerStr question.Name)).1,
                 Rcode := RcodeSuccess }) ∧
      ((t.lookupHost question.Qtype (toLowerStr question.Name)).2 = false →
        server.ServeDNS question = none)) := by
  cases hl : server.lookupTable with
  | none =>
    refine ⟨fun _ => ?_, fun t ht => ?_⟩
    · simp [LocalDNSServer.ServeDNS, hl]
    · cases ht
  | some t0 =>
    refine ⟨fun hn => ?_, fun t ht => ?_⟩
    · cases hn
    · injection ht with ht
      subst ht
      refine ⟨fun htrue => ?_, fun hfalse => ?_⟩
      · simp [LocalDNSServer.ServeDNS, hl, htrue]
      · simp [LocalDNSServer.ServeDNS, hl, hfalse]

/-- C1 witness: the published single-service server answers an A
question on the registered name with the registered record. -/
theorem C1_witness :
    exServer.ServeDNS { Name := "svc.", Qtype := TypeA } =
      some { Authoritative := true,
             Answer := [RR.A ⟨"svc.", TypeA, ClassINET, 30⟩ (IP.v4 10 0 0 5)],
             Rcode := RcodeSuccess } := by
  have h := (C1_serveDNS_contract exServer { Name := "svc.", Qtype := TypeA }).2
    exTable (by decide)
  exact (h.1 (by decide)).trans (by decide)

/-- C2: membership signal of lookupHost.  A hostname absent from
`allHosts` yields `([], false)` for every query type; a hostname
present in `allHosts` yields `isKnown = true` for every query type,
regardless of which address records exist. -/
theorem C2_lookupHost_membership (table : LookupTable) (qtype : Nat)
    (hostname : String) :
    (hostname ∉ table.allHosts → table.lookupHost qtype hostname = ([], false)) ∧
    (hostname ∈ table.allHosts → (table.lookupHost qtype hostname).2 = true) := by
  refine ⟨fun h => ?_, fun h => ?_⟩
  · simp [LookupTable.lookupHost, h]
  · simp [LookupTable.lookupHost, h]

/-- C2 witness: the registered name is known, an unregistered one is
deferred. -/
theorem C2_witness :
    (exTable.lookupHost TypeA "svc.").2 = true ∧
    exTable.lookupHost TypeA "nope." = ([], false) :=
  ⟨(C2_lookupHost_membership exTable TypeA "svc.").2 (by decide),
   (C2_lookupHost_membership exTable TypeA "nope.").1 (by decide)⟩

/-- C3: CNAME chain shape.  When `aliasHost` is known and its cname
entry is one CNAME record to `target`: if `name4[target]` holds the
non-empty record list `recs`, an A lookup on the alias returns exactly
the CNAME record followed by `recs` in order (1 + n records); if the
target has no records of the requested family, the lookup returns
`([], true)` and never the CNAME alone. -/
theorem C3_cname_chain (table : LookupTable) (aliasHost target : String)
    (hdr : RRHeader) (recs : List RR)
    (hmem : aliasHost ∈ table.allHosts)
    (hcn : mapGet table.cname aliasHost = [RR.CNAME hdr target]) :
    (recs ≠ [] → mapGet table.name4 target = recs →
      table.lookupHost TypeA aliasHost = (RR.CNAME hdr target :: recs, true)) ∧
    (mapGet table.name4 target = [] →
      table.lookupHost TypeA aliasHost = ([], true)) ∧
    (mapGet table.name6 target = [] →
      table.lookupHost TypeAAAA aliasHost = ([], true)) := by
  refine ⟨fun hne hrec => ?_, fun h4 => ?_, fun h6 => ?_⟩
  · have hlen : 0 < recs.length := List.length_pos.mpr hne
    simp [LookupTable.lookupHost, hmem, hcn, cnameTarget, hrec, hlen, TypeA]
  · simp [LookupTable.lookupHost, hmem, hcn, cnameTarget, h4, TypeA]
  · simp [LookupTable.lookupHost, hmem, hcn, cnameTarget, h6, TypeA, TypeAAAA]

/-- C3 witness: a two-address chain returns three records in order and
the AAAA lookup on the same alias returns the authoritative empty
answer. -/
theorem C3_witness :
    exTableCn.lookupHost TypeA "alias." =
      (RR.CNAME ⟨"alias.", TypeCNAME, ClassINET, 9⟩ "tgt." ::
        a "tgt." [IP.v4 1 2 3 4, IP.v4 5 6 7 8] 9, true) ∧
    exTableCn.lookupHost TypeAAAA "alias." = ([], true) := by
  have h := C3_cname_chain exTableCn "alias." "tgt."
    ⟨"alias.", TypeCNAME, ClassINET, 9⟩ (a "tgt." [IP.v4 1 2 3 4, IP.v4 5 6 7 8] 9)
    (by decide) (by decide)
  exact ⟨h.1 (by decide) (by decide), h.2.2 (by decide)⟩

/-- C4: authoritative empty answer for the missing family.  For a known
hostname with no cname entry: an AAAA lookup returns `([], true)` when
`name6` has nothing for it, and an A lookup returns `([], true)` when
`name4` has nothing for it — authoritative empty, not deferred. -/
theorem C4_missing_family (table : LookupTable) (hostname : String)
    (hmem : hostname ∈ table.allHosts)
    (hcn : mapGet table.cname hostname = []) :
    (mapGet table.name6 hostname = [] →
      table.lookupHost TypeAAAA hostname = ([], true)) ∧
    (mapGet table.name4 hostname = [] →
      table.lookupHost TypeA hostname = ([], true)) := by
  refine ⟨fun h6 => ?_, fun h4 => ?_⟩
  · simp [LookupTable.lookupHost, hmem, hcn, h6, TypeA, TypeAAAA]
  · simp [LookupTable.lookupHost, hmem, hcn, h4, TypeA]

/-- C4 witness: AAAA on the IPv4-only host and A on the IPv6-only host
both return the authoritative empty answer. -/
theorem C4_witness :
    exTable.lookupHost TypeAAAA "svc." = ([], true) ∧
    exTable6.lookupHost TypeA "svc6." = ([], true) :=
  ⟨(C4_missing_family exTable "svc." (by decide) (by decide)).1 (by decide),
   (C4_missing_family exTable6 "svc6." (by decide) (by decide)).2 (by decide)⟩

/-- C5 counterexample: updating with an IPv6 response address does not
place the record under `name6` as the claim states; the published table
has no `name6` entry for the service and instead holds an A record in
`name4` carrying the IPv6 address. -/
theorem C5_counterexample :
    (((newLocalDNSServer 30).UpdateLookupTable ["svc.ns"]
        (IP.v6 [0, 0, 0, 0, 0, 0, 0, 1])).lookupTable.map
      (fun t => (mapGet t.name6 "svc.ns.", mapGet t.name4 "svc.ns."))) =
    some ([], [RR.A ⟨"svc.ns.", TypeA, ClassINET, 30⟩
      (IP.v6 [0, 0, 0, 0, 0, 0, 0, 1])]) := by
  decide

/-- C5 (amended): for every call `UpdateLookupTable(services, addr)`,
each service name (with a trailing dot appended and lowercased) is
registered under `name4` as a single A record carrying the parsed
address, regardless of the address family; `name6` and `cname` are
never populated. -/
theorem C5_update_always_name4 (server : LocalDNSServer)
    (services : List String) (ip : IP) :
    ∀ t, (server.UpdateLookupTable services ip).lookupTable = some t →
      t.name6 = [] ∧ t.cname = [] ∧
      ∀ s ∈ services,
        mapGet t.name4 (toLowerStr (s ++ ".")) =
          [RR.A ⟨toLowerStr (s ++ "."), TypeA, ClassINET, server.dnsTtl⟩ ip] := by
  intro t ht
  rw [updateLookupTable_eq] at ht
  injection ht with ht
  subst ht
  refine ⟨(updateFold_preserved _ _ _).1, (updateFold_preserved _ _ _).2.1,
    fun s hs => ?_⟩
  rw [updateFold_name4_get, if_pos (List.mem_map.mpr ⟨s, hs, rfl⟩)]
  rfl

/-- C5 witness: the IPv4 single-service update registers the dotted,
lowercased name under `name4` with the address, and leaves `name6` and
`cname` empty. -/
theorem C5_witness :
    exTable.name6 = [] ∧ exTable.cname = [] ∧
    mapGet exTable.name4 (toLowerStr ("svc" ++ ".")) =
      [RR.A ⟨toLowerStr ("svc" ++ "."), TypeA, ClassINET, 30⟩ (IP.v4 10 0 0 5)] := by
  have h := C5_update_always_name4 (newLocalDNSServer 30) ["svc"] (IP.v4 10 0 0 5)
    exTable (by decide)
  exact ⟨h.1, h.2.1, h.2.2 "svc" (by decide)⟩

/-- C6 counterexample: `lookupHost` itself performs no lowercasing, so
on a table whose keys are lowercase the mixed-case query name is not
found while the lowercase one is — the two results differ. -/
theorem C6_counterexample :
    tableC6.lookupHost TypeA "Foo.Example.com." = ([], false) ∧
    tableC6.lookupHost TypeA "Foo.Example.com." ≠
      tableC6.lookupHost TypeA "foo.example.com." := by
  refine ⟨by decide, by decide⟩

/-- C6 (amended): case-insensitivity holds one level up: `ServeDNS`
lowercases the question name before calling `lookupHost`, so a question
and its lowercased form always get identical responses;  `lookupHost`
itself does not normalize its argument. -/
theorem C6_serveDNS_case_insensitive (server : LocalDNSServer)
    (qname : String) (qtype : Nat) :
    server.ServeDNS { Name := qname, Qtype := qtype } =
      server.ServeDNS { Name := toLowerStr qname, Qtype := qtype } := by
  cases hl : server.lookupTable with
  | none => simp [LocalDNSServer.ServeDNS, hl]
  | some t => simp [LocalDNSServer.ServeDNS, hl, toLowerStr_idem]

/-- C7 counterexample: a call of the raw builder with both address
lists empty — allowed by the register contract — adds the host to
`allHosts` while every record map stays empty, so the host appears in
no record map. -/
theorem C7_counterexample :
    "svc.example.com." ∈ tableC7.allHosts ∧
    tableC7.name4 = [] ∧ tableC7.name6 = [] ∧ tableC7.cname = [] := by
  refine ⟨by decide, rfl, rfl, rfl⟩

/-- C7 (amended): in every table produced by `UpdateLookupTable`, every
hostname in `allHosts` is a key of `name4` (hence of at least one
record map), every key of `name4`, `name6` or `cname` is in
`allHosts`, and every such hostname is lowercase with a trailing dot.
For the raw builder the claim fails: a variant registered with no
addresses of either family enters `allHosts` without any record-map
key. -/
theorem C7_update_key_invariant (server : LocalDNSServer)
    (services : List String) (ip : IP) :
    ∀ t, (server.UpdateLookupTable services ip).lookupTable = some t →
      (∀ h ∈ t.allHosts, h ∈ mapKeys t.name4) ∧
      (∀ k, k ∈ mapKeys t.name4 ∨ k ∈ mapKeys t.name6 ∨ k ∈ mapKeys t.cname →
        k ∈ t.allHosts) ∧
      (∀ h, h ∈ t.allHosts ∨ h ∈ mapKeys t.name4 ∨ h ∈ mapKeys t.name6 ∨
          h ∈ mapKeys t.cname →
        toLowerStr h = h ∧ h.data.getLast? = some ('.' : Char)) := by
  intro t ht
  rw [updateLookupTable_eq] at ht
  injection ht with ht
  subst ht
  have h6 := (updateFold_preserved ip services
    { allHosts := [], name4 := [], name6 := [], cname := [],
      dnsTtl := server.dnsTtl }).1
  have hcn := (updateFold_preserved ip services
    { allHosts := [], name4 := [], name6 := [], cname := [],
      dnsTtl := server.dnsTtl }).2.1
  refine ⟨fun h hh => ?_, fun k hk => ?_, fun h hh => ?_⟩
  · rw [updateFold_allHosts] at hh
    rw [updateFold_name4_keys]
    rcases hh with hh | hh
    · cases hh
    · exact Or.inr hh
  · rw [updateFold_allHosts]
    rcases hk with hk | hk | hk
    · rw [updateFold_name4_keys] at hk
      rcases hk with hk | hk
      · simp [mapKeys] at hk
      · exact Or.inr hk
    · rw [h6] at hk
      simp [mapKeys] at hk
    · rw [hcn] at hk
      simp [mapKeys] at hk
  · have hmem : h ∈ services.map (fun s => toLowerStr (s ++ ".")) := by
      rcases hh with hh | hh | hh | hh
      · rw [updateFold_allHosts] at hh
        rcases hh with hh | hh
        · cases hh
        · exact hh
      · rw [updateFold_name4_keys] at hh
        rcases hh with hh | hh
        · simp [mapKeys] at hh
        · exact hh
      · rw [h6] at hh
        simp [mapKeys] at hh
      · rw [hcn] at hh
        simp [mapKeys] at hh
    obtain ⟨s, _, rfl⟩ := List.mem_map.mp hmem
    exact ⟨toLowerStr_idem _, toLowerStr_lastDot _⟩

/-- C7 witness: on the single-service update the registered name is a
`name4` key, lowercase, and dot-terminated. -/
theorem C7_witness :
    "svc." ∈ mapKeys exTable.name4 ∧ toLowerStr "svc." = "svc." ∧
    ("svc." : String).data.getLast? = some ('.' : Char) := by
  have h := C7_update_key_invariant (newLocalDNSServer 30) ["svc"]
    (IP.v4 10 0 0 5) exTable (by decide)
  exact ⟨h.1 "svc." (by decide), h.2.2 "svc." (Or.inl (by decide))⟩

/-- C8: no address validation during update.  When the response address
failed to parse (`net.ParseIP` returned nil, embedded as `IP.nil`),
each service is still added to `allHosts`, `name4` receives one A
record whose address field is the nil parse result, and an A query on
the service returns that record with `isKnown = true`. -/
theorem C8_no_validation (server : LocalDNSServer) (services : List String)
    (s : String) (hs : s ∈ services) :
    ∀ t, (server.UpdateLookupTable services IP.nil).lookupTable = some t →
      toLowerStr (s ++ ".") ∈ t.allHosts ∧
      mapGet t.name4 (toLowerStr (s ++ ".")) =
        [RR.A ⟨toLowerStr (s ++ "."), TypeA, ClassINET, server.dnsTtl⟩ IP.nil] ∧
      t.lookupHost TypeA (toLowerStr (s ++ ".")) =
        ([RR.A ⟨toLowerStr (s ++ "."), TypeA, ClassINET, server.dnsTtl⟩ IP.nil],
          true) := by
  intro t ht
  rw [updateLookupTable_eq] at ht
  injection ht with ht
  subst ht
  have hmemmap : toLowerStr (s ++ ".") ∈
      services.map (fun s => toLowerStr (s ++ ".")) :=
    List.mem_map.mpr ⟨s, hs, rfl⟩
  have hmem : toLowerStr (s ++ ".") ∈ (updateFold IP.nil services
      { allHosts := [], name4 := [], name6 := [], cname := [],
        dnsTtl := server.dnsTtl }).allHosts := by
    rw [updateFold_allHosts]
    exact Or.inr hmemmap
  have hget : mapGet (updateFold IP.nil services
      { allHosts := [], name4 := [], name6 := [], cname := [],
        dnsTtl := server.dnsTtl }).name4 (toLowerStr (s ++ ".")) =
      [RR.A ⟨toLowerStr (s ++ "."), TypeA, ClassINET, server.dnsTtl⟩ IP.nil] := by
    rw [updateFold_name4_get, if_pos hmemmap]
    rfl
  have hcn : mapGet (updateFold IP.nil services
      { allHosts := [], name4 := [], name6 := [], cname := [],
        dnsTtl := server.dnsTtl }).cname (toLowerStr (s ++ ".")) = [] := by
    rw [(updateFold_preserved IP.nil services _).2.1]
    rfl
  refine ⟨hmem, hget, ?_⟩
  simp [LookupTable.lookupHost, hmem, hcn, hget, TypeA]

/-- C8 witness: a failed parse still registers the service whole, with
a nil-address A record that an A query then returns as known. -/
theorem C8_witness :
    toLowerStr ("bad-svc" ++ ".") ∈ exTableNil.allHosts ∧
    mapGet exTableNil.name4 (toLowerStr ("bad-svc" ++ ".")) =
      [RR.A ⟨toLowerStr ("bad-svc" ++ "."), TypeA, ClassINET, 30⟩ IP.nil] ∧
    exTableNil.lookupHost TypeA (toLowerStr ("bad-svc" ++ ".")) =
      ([RR.A ⟨toLowerStr ("bad-svc" ++ "."), TypeA, ClassINET, 30⟩ IP.nil],
        true) :=
  C8_no_validation (newLocalDNSServer 30) ["bad-svc"] "bad-svc" (by decide)
    exTableNil (by decide)

/-- C9: no operation of this core populates the `cname` map —
`UpdateLookupTable` builds tables whose `cname` map is empty — so for
every table it publishes and every query, the answer returned by
`lookupHost` (and hence the answer section of every `ServeDNS`
response) never contains a CNAME record. -/
theorem C9_no_cname_records (server : LocalDNSServer) (services : List String)
    (ip : IP) (qtype : Nat) (hostname : String) :
    ∀ t, (server.UpdateLookupTable services ip).lookupTable = some t →
      t.cname = [] ∧
      (∀ r ∈ (t.lookupHost qtype hostname).1, r.isCNAME = false) ∧
      (∀ question msg,
        (server.UpdateLookupTable services ip).ServeDNS question = some msg →
        ∀ r ∈ msg.Answer, r.isCNAME = false) := by
  intro t ht
  rw [updateLookupTable_eq] at ht
  injection ht with ht
  subst ht
  refine ⟨(updateFold_preserved ip services _).2.1,
    updateFold_answers_noCNAME ip services server.dnsTtl qtype hostname,
    fun question msg hmsg r hr => ?_⟩
  simp only [LocalDNSServer.ServeDNS, updateLookupTable_eq] at hmsg
  split at hmsg
  · injection hmsg with hmsg
    subst hmsg
    exact updateFold_answers_noCNAME ip services server.dnsTtl question.Qtype
      (toLowerStr question.Name) r hr
  · cases hmsg

/-- C9 witness: the single answer of the published server is an A
record, not a CNAME. -/
theorem C9_witness :
    exTable.cname = [] ∧
    (RR.A ⟨"svc.", TypeA, ClassINET, 30⟩ (IP.v4 10 0 0 5)).isCNAME = false := by
  have h := C9_no_cname_records (newLocalDNSServer 30) ["svc"] (IP.v4 10 0 0 5)
    TypeA "svc." exTable (by decide)
  exact ⟨h.1, h.2.1 (RR.A ⟨"svc.", TypeA, ClassINET, 30⟩ (IP.v4 10 0 0 5))
    (by decide)⟩

/-- C10: a question whose Qtype is neither A nor AAAA but whose
lowercased name is known is answered, not deferred: `ServeDNS` returns
an authoritative success response with an empty answer section. -/
theorem C10_other_qtypes (server : LocalDNSServer) (t : LookupTable)
    (question : Question)
    (hpub : server.lookupTable = some t)
    (hA : question.Qtype ≠ TypeA) (hAAAA : question.Qtype ≠ TypeAAAA)
    (hknown : toLowerStr question.Name ∈ t.allHosts) :
    server.ServeDNS question =
      some { Authoritative := true, Answer := [], Rcode := RcodeSuccess } := by
  simp [LocalDNSServer.ServeDNS, hpub, LookupTable.lookupHost, hknown, hA, hAAAA]

/-- C10 witness: a CNAME-type question on the registered name is
answered authoritatively with an empty answer section. -/
theorem C10_witness :
    exServer.ServeDNS { Name := "svc.", Qtype := TypeCNAME } =
      some { Authoritative := true, Answer := [], Rcode := RcodeSuccess } :=
  C10_other_qtypes exServer exTable { Name := "svc.", Qtype := TypeCNAME }
    (by decide) (by decide) (by decide) (by decide)

end Meshproxy
